import Mathlib

/-!
A shallow embedding of the wall-e-mail rule engine
(src/rules/processor.py and the batch loop of src/main.py).

Modelling conventions:
* Python exceptions are `Except PyErr`; a function that Python code can
  raise out of returns `Except PyErr _`, and a `try/except` block is an
  explicit `match` on the result.
* An email dictionary is an association list `List (String × EmailValue)`;
  the values cover the shapes produced by the mailbox adapter: strings,
  naive datetimes, timezone-aware datetimes and booleans.
* A `datetime` is a naive wall-clock instant measured in integer seconds;
  `timedelta(days=d)` is `d * 86400` seconds and `datetime.now()` is an
  explicit `now : Int` parameter threaded through evaluation.
* Calls on the two collaborators (GmailService, EmailDatabase) append an
  `Effect` to a trace; an environment `env : Effect → Bool` says which
  calls succeed (`true`) and which raise (`false`).  A raising call
  appends nothing.
* Logging is not modelled; a branch that only logs is a no-op here.
-/

namespace WallE

/-- Python exception classes reachable from the embedded code. -/
inductive PyErr
  | valueError
  | attributeError
  | typeError
  | keyError
  | indexError
  | collaborator
deriving DecidableEq, Repr

/-- A value stored under a key of an email dictionary.  `dtNaive t` is a
naive `datetime` at wall-clock second `t`; `dtAware t` is a timezone-aware
`datetime` whose wall-clock second is `t` (so `replace(tzinfo=None)`
yields `dtNaive t`). -/
inductive EmailValue
  | str (s : String)
  | dtNaive (t : Int)
  | dtAware (t : Int)
  | boolVal (b : Bool)
deriving DecidableEq, Repr

/-- Is the value a `datetime` (i.e. does it expose `tzinfo`)? -/
def EmailValue.isDatetime : EmailValue → Bool
  | .dtNaive _ => true
  | .dtAware _ => true
  | _ => false

/-- An email dictionary, as handed to the engine. -/
def Email : Type := List (String × EmailValue)

/-- Python `email[key]`: raises `KeyError` when the key is absent. -/
def emailGet (email : Email) (key : String) : Except PyErr EmailValue :=
  match List.lookup key email with
  | some v => .ok v
  | none => .error .keyError

/-- Python `str(value)`.  Only the string case matters to the engine; the
other representations are an arbitrary injective rendering. -/
def pyStr : EmailValue → String
  | .str s => s
  | .dtNaive t => "datetime(" ++ toString t ++ ")"
  | .dtAware t => "datetime-tz(" ++ toString t ++ ")"
  | .boolVal b => if b then "True" else "False"

/-- Python `s.lower()`. -/
def pyLower (s : String) : String :=
  ⟨s.data.map Char.toLower⟩

/-- Python `s.split()[0]` (split on runs of whitespace, modelled as the
space character): `IndexError` when the string holds no token. -/
def pySplitHead (s : List Char) : Except PyErr (List Char) :=
  let t := s.dropWhile (· = ' ')
  if t.isEmpty then .error .indexError else .ok (t.takeWhile (· ≠ ' '))

/-- Digit run to number, for `pyInt`. -/
def digitsToNat (l : List Char) : Nat :=
  l.foldl (fun acc c => acc * 10 + (c.toNat - 48)) 0

/-- Python `int(s)` on an already-stripped token: an optional minus sign
followed by a nonempty digit run; anything else raises `ValueError`. -/
def pyInt (s : List Char) : Except PyErr Int :=
  match s with
  | '-' :: rest =>
      if rest ≠ [] ∧ rest.all Char.isDigit then .ok (-(digitsToNat rest : Int))
      else .error .valueError
  | _ =>
      if s ≠ [] ∧ s.all Char.isDigit then .ok (digitsToNat s : Int)
      else .error .valueError

/-- Python `needle in hay` on character lists: some position of `hay`
starts with `needle`. -/
def listSub (needle : List Char) : List Char → Bool
  | [] => needle.isEmpty
  | c :: rest => needle.isPrefixOf (c :: rest) || listSub needle rest

/-- Python `needle in hay` on strings. -/
def pySubstr (needle hay : String) : Bool :=
  listSub needle.data hay.data

/-- `EMAIL_FIELD_MAPPING` from src/rules/processor.py. -/
def EMAIL_FIELD_MAPPING : List (String × String) :=
  [("from", "sender"),
   ("sender", "sender"),
   ("to", "recipient"),
   ("recipient", "recipient"),
   ("subject", "subject"),
   ("body", "body"),
   ("received_date", "received_date")]

/-- `RuleCondition` (field, predicate, value). -/
structure RuleCondition where
  field : String
  predicate : String
  value : String
deriving DecidableEq, Repr

/-- `RuleCondition._evaluate_string`: four case-insensitive string
predicates; any other predicate yields `False`. -/
def RuleCondition.evaluate_string (c : RuleCondition) (field_value : String) : Bool :=
  if c.predicate = "contains" then
    pySubstr (pyLower c.value) (pyLower field_value)
  else if c.predicate = "does_not_contain" then
    ! pySubstr (pyLower c.value) (pyLower field_value)
  else if c.predicate = "equals" then
    pyLower c.value = pyLower field_value
  else if c.predicate = "does_not_equal" then
    pyLower c.value ≠ pyLower field_value
  else
    false

/-- The body of the `try` block of `RuleCondition._evaluate_date`, after
the `tzinfo` normalisation produced the naive wall-clock second `fv`.
`compare_date = now - days * 86400` is `now - timedelta(days=days)`. -/
def RuleCondition.evaluate_date_body (c : RuleCondition) (fv now : Int) : Except PyErr Bool :=
  if pySubstr "days" c.value then
    match pySplitHead c.value.data with
    | .error e => .error e
    | .ok tok =>
      match pyInt tok with
      | .error e => .error e
      | .ok days =>
        let compare_date := now - days * 86400
        if c.predicate = "less_than" then .ok (decide (fv > compare_date))
        else if c.predicate = "greater_than" then .ok (decide (fv < compare_date))
        else .ok false
  else
    .ok false

/-- The `try` block of `RuleCondition._evaluate_date`: reading `tzinfo`
on a non-datetime raises `AttributeError`; an aware datetime is
normalised to its naive wall-clock value. -/
def RuleCondition.evaluate_date_raw (c : RuleCondition) (field_value : EmailValue)
    (now : Int) : Except PyErr Bool :=
  match field_value with
  | .dtAware t => c.evaluate_date_body t now
  | .dtNaive t => c.evaluate_date_body t now
  | _ => .error .attributeError

/-- `RuleCondition._evaluate_date`: the `try` body with its
`except (ValueError, AttributeError)` handler, which logs and falls
through to `return False`.  Other exception classes would propagate. -/
def RuleCondition.evaluate_date (c : RuleCondition) (field_value : EmailValue)
    (now : Int) : Except PyErr Bool :=
  match c.evaluate_date_raw field_value now with
  | .ok b => .ok b
  | .error .valueError => .ok false
  | .error .attributeError => .ok false
  | .error e => .error e

/-- `RuleCondition.evaluate`: map the rule field through
`EMAIL_FIELD_MAPPING`; a missing mapping (`None` or an empty string,
both falsy) or a mapped key absent from the email logs and returns
`False`; the `received_date` field routes to the date evaluator, every
other field to the string evaluator on `str(field_value)`. -/
def RuleCondition.evaluate (c : RuleCondition) (email : Email) (now : Int) :
    Except PyErr Bool :=
  match List.lookup c.field EMAIL_FIELD_MAPPING with
  | none => .ok false
  | some email_field =>
    if email_field = "" then .ok false
    else
      match List.lookup email_field email with
      | none => .ok false
      | some field_value =>
        if c.field = "received_date" then
          c.evaluate_date field_value now
        else
          .ok (c.evaluate_string (pyStr field_value))

/-- The boolean a `RuleCondition.evaluate` call yields.  Evaluation is
total on the modelled value universe (proved below); the impossible
error case defaults to `false`. -/
def RuleCondition.evalB (c : RuleCondition) (email : Email) (now : Int) : Bool :=
  match c.evaluate email now with
  | .ok b => b
  | .error _ => false

/-- A Python action dictionary (string keys to string values). -/
structure PyAction where
  entries : List (String × String)
deriving DecidableEq, Repr

/-- Python `action[key]`. -/
def PyAction.get (a : PyAction) (key : String) : Except PyErr String :=
  match List.lookup key a.entries with
  | some v => .ok v
  | none => .error .keyError

/-- `Rule` (name, conditions, combination predicate, actions). -/
structure Rule where
  name : String
  conditions : List RuleCondition
  predicate : String
  actions : List PyAction
deriving DecidableEq, Repr

/-- The `results` list of `Rule.evaluate`: every condition is evaluated
(no lazy short-circuit), results collected in order. -/
def evalConditions (conds : List RuleCondition) (email : Email) (now : Int) :
    Except PyErr (List Bool) :=
  match conds with
  | [] => .ok []
  | c :: rest =>
    match c.evaluate email now with
    | .error e => .error e
    | .ok b =>
      match evalConditions rest email now with
      | .error e => .error e
      | .ok bs => .ok (b :: bs)

/-- `Rule.evaluate`: empty condition list is `False`; otherwise combine
all condition results with `all`/`any`; an unknown combination predicate
leaves the initial `final_result = False`. -/
def Rule.evaluate (r : Rule) (email : Email) (now : Int) : Except PyErr Bool :=
  if r.conditions = [] then .ok false
  else
    match evalConditions r.conditions email now with
    | .error e => .error e
    | .ok results =>
      if r.predicate = "all" then .ok (results.all id)
      else if r.predicate = "any" then .ok (results.any id)
      else .ok false

/-- One call on a collaborator.  `gmailMarkAsRead`/`dbMarkAsRead` carry
the read flag passed to `mark_as_read`; `gmailMoveMessage` and
`dbUpdateLabels` carry the label.  The message id is whatever
`email["message_id"]` held. -/
inductive Effect
  | gmailMarkAsRead (messageId : EmailValue) (read : Bool)
  | dbMarkAsRead (messageId : EmailValue) (read : Bool)
  | gmailMoveMessage (messageId : EmailValue) (label : String)
  | dbUpdateLabels (messageId : EmailValue) (label : String)
deriving DecidableEq, Repr

/-- Perform one collaborator call: append the effect to the trace when
the environment lets the call succeed, otherwise raise out of it (the
effect then never happened). -/
def callCollab (env : Effect → Bool) (tr : List Effect) (e : Effect) :
    Except PyErr (List Effect) :=
  if env e then .ok (tr ++ [e]) else .error .collaborator

/-- The two calls of the `mark_as_read` / `mark_as_unread` branches of
`Rule.apply_actions`: `gmail_service.mark_as_read` then
`email_db.mark_as_read`, both on `email["message_id"]`.  Returns the
trace reached so far together with the exception, if one was raised. -/
def markReadSteps (env : Effect → Bool) (email : Email) (tr : List Effect)
    (read : Bool) : List Effect × Option PyErr :=
  match emailGet email "message_id" with
  | .error e => (tr, some e)
  | .ok mid =>
    match callCollab env tr (.gmailMarkAsRead mid read) with
    | .error e => (tr, some e)
    | .ok tr₁ =>
      match callCollab env tr₁ (.dbMarkAsRead mid read) with
      | .error e => (tr₁, some e)
      | .ok tr₂ => (tr₂, none)

/-- The two calls of the `move_message` branch (once a label is
present): `gmail_service.move_message` then `email_db.update_labels`. -/
def moveSteps (env : Effect → Bool) (email : Email) (tr : List Effect)
    (label : String) : List Effect × Option PyErr :=
  match emailGet email "message_id" with
  | .error e => (tr, some e)
  | .ok mid =>
    match callCollab env tr (.gmailMoveMessage mid label) with
    | .error e => (tr, some e)
    | .ok tr₁ =>
      match callCollab env tr₁ (.dbUpdateLabels mid label) with
      | .error e => (tr₁, some e)
      | .ok tr₂ => (tr₂, none)

/-- One iteration of the action loop of `Rule.apply_actions`:
`action["type"]` (KeyError if absent) dispatches to the branches; a
`move_message` without a `"label"` key and an unrecognised type both
fall through silently. -/
def applyOneAction (env : Effect → Bool) (email : Email) (a : PyAction)
    (tr : List Effect) : List Effect × Option PyErr :=
  match a.get "type" with
  | .error e => (tr, some e)
  | .ok action_type =>
    if action_type = "mark_as_read" then
      markReadSteps env email tr true
    else if action_type = "mark_as_unread" then
      markReadSteps env email tr false
    else if action_type = "move_message" then
      match List.lookup "label" a.entries with
      | some label => moveSteps env email tr label
      | none => (tr, none)
    else
      (tr, none)

/-- The action loop of `Rule.apply_actions`: a raised exception aborts
the loop at that point, keeping the effects already performed. -/
def applyActionsGo (env : Effect → Bool) (email : Email) :
    List PyAction → List Effect → List Effect × Option PyErr
  | [], tr => (tr, none)
  | a :: rest, tr =>
    match applyOneAction env email a tr with
    | (tr₁, none) => applyActionsGo env email rest tr₁
    | (tr₁, some e) => (tr₁, some e)

/-- `Rule.apply_actions`: run the loop inside `try`; on success return
`True`, and the `except Exception` handler logs with the rule name and
falls through to `return False`.  Never raises. -/
def Rule.apply_actions (r : Rule) (env : Effect → Bool) (email : Email)
    (tr : List Effect) : Bool × List Effect :=
  match applyActionsGo env email r.actions tr with
  | (tr₁, none) => (true, tr₁)
  | (tr₁, some _) => (false, tr₁)

/-- The rule loop of `RuleProcessor.process_email`: evaluate every rule
in declaration order; a matching rule has its actions applied (the
boolean outcome is only logged); an exception raised by `evaluate`
would abort the loop. -/
def processEmailGo (env : Effect → Bool) (email : Email) (now : Int) :
    List Rule → List Effect → List Effect × Option PyErr
  | [], tr => (tr, none)
  | r :: rest, tr =>
    match r.evaluate email now with
    | .error e => (tr, some e)
    | .ok false => processEmailGo env email now rest tr
    | .ok true =>
      let (_, tr₁) := r.apply_actions env email tr
      processEmailGo env email now rest tr₁

/-- `RuleProcessor.process_email`: the rule loop inside `try`, then
`return True`; the `except Exception` handler interpolates
`email["message_id"]` into its log line — a dict access that itself
raises `KeyError` when the key is absent — and falls through to
`return False`. -/
def process_email (rules : List Rule) (env : Effect → Bool) (email : Email)
    (now : Int) : Except PyErr (Bool × List Effect) :=
  match processEmailGo env email now rules [] with
  | (tr, none) => .ok (true, tr)
  | (tr, some _) =>
    match emailGet email "message_id" with
    | .ok _ => .ok (false, tr)
    | .error e => .error e

/-- The per-email `except Exception` handler of the batch loop in
src/main.py: its log line interpolates `email["message_id"]`, so on a
message lacking that key the handler itself raises `KeyError`; when the
key is present it logs and the loop continues with the next email. -/
def perEmailExcept (email : Email) : Except PyErr Unit :=
  match emailGet email "message_id" with
  | .ok _ => .ok ()
  | .error e => .error e

/-- The per-batch accumulation loop of `process_emails` in src/main.py:
for each email, `if rule_processor.process_email(...)` appends
`email["message_id"]` to `batch_processed_ids`.  An exception from the
body — from `process_email` itself or from the `message_id` access of
the append — reaches the per-email handler (`perEmailExcept`), which
either logs and continues or, for a message lacking `message_id`,
raises again; that second exception escapes the per-email `try` and
aborts the whole batch. -/
def batchProcessedIdsGo (rules : List Rule) (env : Effect → Bool) (now : Int) :
    List Email → List EmailValue → Except PyErr (List EmailValue)
  | [], acc => .ok acc
  | email :: rest, acc =>
    match process_email rules env email now with
    | .ok (true, _) =>
      match emailGet email "message_id" with
      | .ok mid => batchProcessedIdsGo rules env now rest (acc ++ [mid])
      | .error _ =>
        match perEmailExcept email with
        | .ok _ => batchProcessedIdsGo rules env now rest acc
        | .error e => .error e
    | .ok (false, _) => batchProcessedIdsGo rules env now rest acc
    | .error _ =>
      match perEmailExcept email with
      | .ok _ => batchProcessedIdsGo rules env now rest acc
      | .error e => .error e

/-- `batch_processed_ids` at the end of a batch of `process_emails`;
`.error` when the loop aborted (the exception then lands in the
batch-level handler, which logs and continues with the next batch). -/
def batch_processed_ids (rules : List Rule) (env : Effect → Bool) (now : Int)
    (batch : List Email) : Except PyErr (List EmailValue) :=
  batchProcessedIdsGo rules env now batch []

/-- Whether `email_db.mark_as_processed_batch` is called for the batch:
the call sits after the loop inside the per-batch `try`, guarded by
`if batch_processed_ids:` — it happens only when the loop completed
without aborting and collected a nonempty list. -/
def markProcessedBatchCalled (rules : List Rule) (env : Effect → Bool) (now : Int)
    (batch : List Email) : Bool :=
  match batch_processed_ids rules env now batch with
  | .ok ids => ! ids.isEmpty
  | .error _ => false

/-- A parsed JSON value of the rules configuration document.  The
embedding types configuration scalars as strings (the shape the
documented format prescribes); a document carrying other scalar shapes
is outside the model. -/
inductive JValue
  | str (s : String)
  | jlist (items : List JValue)
  | obj (fields : List (String × JValue))

/-- Python `j[key]` on a parsed JSON value: `KeyError` for a missing
key of an object, `TypeError` when the value is not an object. -/
def JValue.get (j : JValue) (key : String) : Except PyErr JValue :=
  match j with
  | .obj fields =>
    match List.lookup key fields with
    | some v => .ok v
    | none => .error .keyError
  | _ => .error .typeError

/-- Expect a JSON string. -/
def JValue.asStr : JValue → Except PyErr String
  | .str s => .ok s
  | _ => .error .typeError

/-- Expect a JSON list (what the `for` loops of `load_rules` iterate). -/
def JValue.asList : JValue → Except PyErr (List JValue)
  | .jlist l => .ok l
  | _ => .error .typeError

/-- Build one `RuleCondition` from a `{field, predicate, value}` object
(the comprehension inside `load_rules`), accessing the keys in source
order. -/
def buildCondition (c : JValue) : Except PyErr RuleCondition := do
  let f ← (← c.get "field").asStr
  let p ← (← c.get "predicate").asStr
  let v ← (← c.get "value").asStr
  pure ⟨f, p, v⟩

/-- The condition list comprehension of `load_rules`. -/
def buildConditions : List JValue → Except PyErr (List RuleCondition)
  | [] => .ok []
  | c :: rest => do
    let rc ← buildCondition c
    let rcs ← buildConditions rest
    pure (rc :: rcs)

/-- Build one action dictionary entry list from a JSON object. -/
def buildActionEntries : List (String × JValue) → Except PyErr (List (String × String))
  | [] => .ok []
  | (k, v) :: rest => do
    let s ← v.asStr
    let ss ← buildActionEntries rest
    pure ((k, s) :: ss)

/-- Build one action dictionary (`rule_data["actions"]` items are kept
as dictionaries by the source; the embedding types their entries). -/
def buildAction : JValue → Except PyErr PyAction
  | .obj fields => do
    let entries ← buildActionEntries fields
    pure ⟨entries⟩
  | _ => .error .typeError

/-- The action list of one rule. -/
def buildActions : List JValue → Except PyErr (List PyAction)
  | [] => .ok []
  | a :: rest => do
    let pa ← buildAction a
    let pas ← buildActions rest
    pure (pa :: pas)

/-- Build one `Rule` from a rule object, in the evaluation order of the
source: the `conditions` comprehension runs first, then the `Rule(...)`
constructor arguments `name`, `predicate`, `actions`. -/
def buildRule (rule_data : JValue) : Except PyErr Rule := do
  let condsJ ← (← rule_data.get "conditions").asList
  let conds ← buildConditions condsJ
  let name ← (← rule_data.get "name").asStr
  let pred ← (← rule_data.get "predicate").asStr
  let actsJ ← (← rule_data.get "actions").asList
  let acts ← buildActions actsJ
  pure ⟨name, conds, pred, acts⟩

/-- `rules_data["rules"]` as a list. -/
def getRulesList (j : JValue) : Except PyErr (List JValue) := do
  (← j.get "rules").asList

/-- The rule loop of `RuleProcessor.load_rules`: each built rule is
appended to `self.rules` before the next iteration, so an exception
aborts the loop keeping the rules appended so far (the `except` at the
top of `load_rules` only logs). -/
def loadRulesGo : List JValue → List Rule → List Rule
  | [], acc => acc
  | j :: rest, acc =>
    match buildRule j with
    | .ok r => loadRulesGo rest (acc ++ [r])
    | .error _ => acc

/-- `RuleProcessor.load_rules` acting on the parse result of the rules
document (`.error` when `json.load` itself raised): every failure is
caught by the `except Exception` handler, which logs and leaves
`self.rules` as accumulated; construction never propagates. -/
def load_rules (doc : Except PyErr JValue) : List Rule :=
  match doc with
  | .error _ => []
  | .ok j =>
    match getRulesList j with
    | .error _ => []
    | .ok rulesList => loadRulesGo rulesList []

/-- Build every rule object of a list, failing on the first malformed
one.  This is the raising variant of the load loop, used to state which
configuration documents (or prefixes) are well formed. -/
def buildRules : List JValue → Except PyErr (List Rule)
  | [] => .ok []
  | j :: rest =>
    match buildRule j with
    | .error e => .error e
    | .ok r =>
      match buildRules rest with
      | .error e => .error e
      | .ok rs => .ok (r :: rs)

/-! Concrete fixtures used by witnesses and counterexamples. -/

/-- A well-formed sample email. -/
def sampleEmail : Email :=
  [("message_id", .str "m1"),
   ("sender", .str "alice@example.com"),
   ("recipient", .str "bob@example.com"),
   ("subject", .str "hello"),
   ("body", .str "greetings"),
   ("received_date", .dtNaive 0),
   ("is_read", .boolVal false)]

/-- A rule that does not match `sampleEmail` (subject lacks "xyz"). -/
def ruleNoMatch : Rule :=
  ⟨"archive", [⟨"subject", "contains", "xyz"⟩], "all",
   [⟨[("type", "mark_as_read")]⟩]⟩

/-- A rule matching every email with a subject: its single condition
checks that the subject contains the empty string. -/
def ruleMover : Rule :=
  ⟨"mover", [⟨"subject", "contains", ""⟩], "all",
   [⟨[("type", "move_message"), ("label", "Archive")]⟩]⟩

/-- A second always-matching rule with a mark-as-read action. -/
def ruleReader : Rule :=
  ⟨"reader", [⟨"subject", "contains", ""⟩], "all",
   [⟨[("type", "mark_as_read")]⟩]⟩

/-- An environment in which every collaborator call succeeds. -/
def envAllOk : Effect → Bool := fun _ => true

/-- An environment failing exactly the Gmail move call. -/
def envFailGmailMove : Effect → Bool := fun e =>
  match e with
  | .gmailMoveMessage _ _ => false
  | _ => true

/-- An environment failing exactly the database label update. -/
def envFailDbLabels : Effect → Bool := fun e =>
  match e with
  | .dbUpdateLabels _ _ => false
  | _ => true

/-- A well-formed rule object of the configuration document. -/
def goodRuleJ : JValue :=
  .obj [("name", .str "r1"),
        ("conditions", .jlist
          [.obj [("field", .str "subject"),
                 ("predicate", .str "contains"),
                 ("value", .str "a")]]),
        ("predicate", .str "all"),
        ("actions", .jlist [.obj [("type", .str "mark_as_read")]])]

/-- A malformed rule object: the "name" key is missing. -/
def badRuleJ : JValue :=
  .obj [("conditions", .jlist []),
        ("predicate", .str "all"),
        ("actions", .jlist [])]

/-- The `Rule` that `goodRuleJ` builds into. -/
def goodRule : Rule :=
  ⟨"r1", [⟨"subject", "contains", "a"⟩], "all", [⟨[("type", "mark_as_read")]⟩]⟩

/-- A malformed configuration document: its second rule object is bad. -/
def docTwoRules : JValue := .obj [("rules", .jlist [goodRuleJ, badRuleJ])]


/-! Helper lemmas: totality of condition evaluation. -/

theorem isPrefixOf_mem {l₁ l₂ : List Char} (h : l₁.isPrefixOf l₂ = true) :
    ∀ c ∈ l₁, c ∈ l₂ := by
  induction l₁ generalizing l₂ with
  | nil => intro c hc; cases hc
  | cons a as ih =>
    cases l₂ with
    | nil => simp [List.isPrefixOf] at h
    | cons b bs =>
      simp only [List.isPrefixOf, Bool.and_eq_true, beq_iff_eq] at h
      obtain ⟨hab, hrest⟩ := h
      intro c hc
      rcases List.mem_cons.mp hc with hca | hcas
      · exact hca ▸ hab ▸ List.mem_cons_self b bs
      · exact List.mem_cons_of_mem b (ih hrest c hcas)

theorem listSub_mem {n h : List Char} (hs : listSub n h = true) : ∀ c ∈ n, c ∈ h := by
  induction h with
  | nil =>
    intro c hc
    simp only [listSub, List.isEmpty_iff] at hs
    subst hs; cases hc
  | cons b bs ih =>
    intro c hc
    simp only [listSub, Bool.or_eq_true] at hs
    rcases hs with h1 | h2
    · exact isPrefixOf_mem h1 c hc
    · exact List.mem_cons_of_mem b (ih h2 c hc)

theorem pySplitHead_ok_of_days {v : String} (hd : pySubstr "days" v = true) :
    ∃ tok, pySplitHead v.data = .ok tok := by
  have hmem : 'd' ∈ v.data := listSub_mem hd 'd' (by decide)
  have hne : (v.data.dropWhile (· = ' ')).isEmpty = false := by
    rcases h : v.data.dropWhile (· = ' ') with _ | ⟨x, xs⟩
    · exfalso
      have := List.dropWhile_eq_nil_iff.mp h 'd' hmem
      simp at this
    · rfl
  exact ⟨(v.data.dropWhile (· = ' ')).takeWhile (· ≠ ' '),
    by simp [pySplitHead, hne]⟩

theorem pyInt_error_eq {s : List Char} {e : PyErr} (h : pyInt s = .error e) :
    e = .valueError := by
  unfold pyInt at h
  split at h
  · split at h
    · simp at h
    · simp at h; exact h.symm
  · split at h
    · simp at h
    · simp at h; exact h.symm

theorem evaluate_date_body_cases (c : RuleCondition) (fv now : Int) :
    (∃ b, c.evaluate_date_body fv now = .ok b) ∨
      c.evaluate_date_body fv now = .error .valueError := by
  by_cases hd : pySubstr "days" c.value = true
  · obtain ⟨tok, htok⟩ := pySplitHead_ok_of_days hd
    cases hpi : pyInt tok with
    | error e =>
      right
      have he := pyInt_error_eq hpi
      subst he
      simp [RuleCondition.evaluate_date_body, hd, htok, hpi]
    | ok days =>
      left
      simp only [RuleCondition.evaluate_date_body, hd, if_true, htok, hpi]
      split_ifs <;> exact ⟨_, rfl⟩
  · exact Or.inl ⟨false, by simp [RuleCondition.evaluate_date_body, hd]⟩

theorem evaluate_date_isOk (c : RuleCondition) (fv : EmailValue) (now : Int) :
    ∃ b, c.evaluate_date fv now = .ok b := by
  cases fv with
  | str s => exact ⟨false, rfl⟩
  | boolVal b => exact ⟨false, rfl⟩
  | dtNaive t =>
    rcases evaluate_date_body_cases c t now with ⟨b, hb⟩ | hb
    · exact ⟨b, by simp [RuleCondition.evaluate_date, RuleCondition.evaluate_date_raw, hb]⟩
    · exact ⟨false, by simp [RuleCondition.evaluate_date, RuleCondition.evaluate_date_raw, hb]⟩
  | dtAware t =>
    rcases evaluate_date_body_cases c t now with ⟨b, hb⟩ | hb
    · exact ⟨b, by simp [RuleCondition.evaluate_date, RuleCondition.evaluate_date_raw, hb]⟩
    · exact ⟨false, by simp [RuleCondition.evaluate_date, RuleCondition.evaluate_date_raw, hb]⟩

theorem condition_evaluate_isOk (c : RuleCondition) (email : Email) (now : Int) :
    ∃ b, c.evaluate email now = .ok b := by
  cases hm : List.lookup c.field EMAIL_FIELD_MAPPING with
  | none => exact ⟨false, by simp [RuleCondition.evaluate, hm]⟩
  | some ef =>
    by_cases hef : ef = ""
    · exact ⟨false, by simp [RuleCondition.evaluate, hm, hef]⟩
    · cases hl : List.lookup ef email with
      | none => exact ⟨false, by simp [RuleCondition.evaluate, hm, hef, hl]⟩
      | some fv =>
        by_cases hrd : c.field = "received_date"
        · obtain ⟨b, hb⟩ := evaluate_date_isOk c fv now
          rw [hrd] at hm
          have hef' : ef = "received_date" := by
            have : List.lookup "received_date" EMAIL_FIELD_MAPPING =
                some "received_date" := by rfl
            rw [this] at hm
            exact (Option.some.injEq _ _).mp hm.symm
          subst hef'
          exact ⟨b, by simp [RuleCondition.evaluate, hrd, hm, hef, hl, hb]⟩
        · exact ⟨c.evaluate_string (pyStr fv),
            by simp [RuleCondition.evaluate, hm, hef, hl, hrd]⟩

theorem condition_evaluate_eq_evalB (c : RuleCondition) (email : Email) (now : Int) :
    c.evaluate email now = .ok (c.evalB email now) := by
  obtain ⟨b, hb⟩ := condition_evaluate_isOk c email now
  unfold RuleCondition.evalB
  rw [hb]

theorem evalConditions_eq (conds : List RuleCondition) (email : Email) (now : Int) :
    evalConditions conds email now = .ok (conds.map (fun c => c.evalB email now)) := by
  induction conds with
  | nil => rfl
  | cons c rest ih =>
    simp only [evalConditions, condition_evaluate_eq_evalB, ih, List.map]

theorem rule_evaluate_eq (r : Rule) (email : Email) (now : Int) :
    r.evaluate email now = .ok (
      if r.conditions = [] then false
      else if r.predicate = "all" then
        (r.conditions.map (fun c => c.evalB email now)).all id
      else if r.predicate = "any" then
        (r.conditions.map (fun c => c.evalB email now)).any id
      else false) := by
  by_cases h : r.conditions = []
  · simp [Rule.evaluate, h]
  · simp only [Rule.evaluate, h, if_false, evalConditions_eq]
    split_ifs <;> rfl

theorem rule_evaluate_isOk (r : Rule) (email : Email) (now : Int) :
    ∃ b, r.evaluate email now = .ok b :=
  ⟨_, rule_evaluate_eq r email now⟩

theorem evalB_true_iff (c : RuleCondition) (email : Email) (now : Int) :
    c.evalB email now = true ↔ c.evaluate email now = .ok true := by
  rw [condition_evaluate_eq_evalB]
  simp

/-! Helper lemmas: the engine loop never raises. -/

theorem processEmailGo_ok (env : Effect → Bool) (email : Email) (now : Int) :
    ∀ (rules : List Rule) (tr : List Effect),
      ∃ tr', processEmailGo env email now rules tr = (tr', none) := by
  intro rules
  induction rules with
  | nil => intro tr; exact ⟨tr, rfl⟩
  | cons r rest ih =>
    intro tr
    obtain ⟨b, hb⟩ := rule_evaluate_isOk r email now
    cases b with
    | false =>
      obtain ⟨tr', h⟩ := ih tr
      exact ⟨tr', by simp [processEmailGo, hb, h]⟩
    | true =>
      rcases hap : r.apply_actions env email tr with ⟨okb, tr₁⟩
      obtain ⟨tr', h⟩ := ih tr₁
      exact ⟨tr', by simp [processEmailGo, hb, hap, h]⟩

/-- C3: on the modelled value universe, `process_email` never raises to
its caller and returns `True` for every message and rule set: every
exception arising inside condition evaluation or action application is
caught below `process_email`, so the `except` branch (whose own
`email["message_id"]` access could raise for a malformed message) is
never reached. -/
theorem claim3_process_email_total (rules : List Rule) (env : Effect → Bool)
    (email : Email) (now : Int) :
    ∃ tr, process_email rules env email now = .ok (true, tr) := by
  obtain ⟨tr, htr⟩ := processEmailGo_ok env email now rules []
  exact ⟨tr, by simp [process_email, htr]⟩

/-! Helper lemmas: effect traces only ever grow. -/

theorem callCollab_ok_eq {env : Effect → Bool} {tr tr' : List Effect} {e : Effect}
    (h : callCollab env tr e = .ok tr') : tr' = tr ++ [e] := by
  unfold callCollab at h
  split at h
  · simp at h; exact h.symm
  · simp at h

theorem markReadSteps_extends (env : Effect → Bool) (email : Email) (tr : List Effect)
    (read : Bool) : ∃ s, (markReadSteps env email tr read).1 = tr ++ s := by
  cases hmid : emailGet email "message_id" with
  | error e => exact ⟨[], by simp [markReadSteps, hmid]⟩
  | ok mid =>
    cases h1 : callCollab env tr (.gmailMarkAsRead mid read) with
    | error e => exact ⟨[], by simp [markReadSteps, hmid, h1]⟩
    | ok tr₁ =>
      have e1 := callCollab_ok_eq h1
      subst e1
      cases h2 : callCollab env (tr ++ [Effect.gmailMarkAsRead mid read])
          (.dbMarkAsRead mid read) with
      | error e =>
        exact ⟨[.gmailMarkAsRead mid read],
          by simp [markReadSteps, hmid, h1, h2]⟩
      | ok tr₂ =>
        have e2 := callCollab_ok_eq h2
        subst e2
        exact ⟨[.gmailMarkAsRead mid read, .dbMarkAsRead mid read],
          by simp [markReadSteps, hmid, h1, h2, List.append_assoc]⟩

theorem moveSteps_extends (env : Effect → Bool) (email : Email) (tr : List Effect)
    (label : String) : ∃ s, (moveSteps env email tr label).1 = tr ++ s := by
  cases hmid : emailGet email "message_id" with
  | error e => exact ⟨[], by simp [moveSteps, hmid]⟩
  | ok mid =>
    cases h1 : callCollab env tr (.gmailMoveMessage mid label) with
    | error e => exact ⟨[], by simp [moveSteps, hmid, h1]⟩
    | ok tr₁ =>
      have e1 := callCollab_ok_eq h1
      subst e1
      cases h2 : callCollab env (tr ++ [Effect.gmailMoveMessage mid label])
          (.dbUpdateLabels mid label) with
      | error e =>
        exact ⟨[.gmailMoveMessage mid label],
          by simp [moveSteps, hmid, h1, h2]⟩
      | ok tr₂ =>
        have e2 := callCollab_ok_eq h2
        subst e2
        exact ⟨[.gmailMoveMessage mid label, .dbUpdateLabels mid label],
          by simp [moveSteps, hmid, h1, h2, List.append_assoc]⟩

theorem applyOneAction_extends (env : Effect → Bool) (email : Email) (a : PyAction)
    (tr : List Effect) : ∃ s, (applyOneAction env email a tr).1 = tr ++ s := by
  cases ht : a.get "type" with
  | error e => exact ⟨[], by simp [applyOneAction, ht]⟩
  | ok ty =>
    by_cases h1 : ty = "mark_as_read"
    · obtain ⟨s, hs⟩ := markReadSteps_extends env email tr true
      exact ⟨s, by simp [applyOneAction, ht, h1]; exact hs⟩
    · by_cases h2 : ty = "mark_as_unread"
      · obtain ⟨s, hs⟩ := markReadSteps_extends env email tr false
        exact ⟨s, by simp [applyOneAction, ht, h1, h2]; exact hs⟩
      · by_cases h3 : ty = "move_message"
        · cases hl : List.lookup "label" a.entries with
          | none => exact ⟨[], by simp [applyOneAction, ht, h1, h2, h3, hl]⟩
          | some label =>
            obtain ⟨s, hs⟩ := moveSteps_extends env email tr label
            exact ⟨s, by simp [applyOneAction, ht, h1, h2, h3, hl]; exact hs⟩
        · exact ⟨[], by simp [applyOneAction, ht, h1, h2, h3]⟩

theorem applyActionsGo_extends (env : Effect → Bool) (email : Email) :
    ∀ (acts : List PyAction) (tr : List Effect),
      ∃ s, (applyActionsGo env email acts tr).1 = tr ++ s := by
  intro acts
  induction acts with
  | nil => intro tr; exact ⟨[], by simp [applyActionsGo]⟩
  | cons a rest ih =>
    intro tr
    rcases hone : applyOneAction env email a tr with ⟨tr', oe⟩
    obtain ⟨s₁, hs₁⟩ := applyOneAction_extends env email a tr
    rw [hone] at hs₁
    simp only at hs₁
    cases oe with
    | some e => exact ⟨s₁, by simp [applyActionsGo, hone]; exact hs₁⟩
    | none =>
      subst hs₁
      obtain ⟨s₂, hs₂⟩ := ih (tr ++ s₁)
      exact ⟨s₁ ++ s₂,
        by simp [applyActionsGo, hone, hs₂, List.append_assoc]⟩

theorem applyActionsGo_append_ok {env : Effect → Bool} {email : Email}
    {pre : List PyAction} {tr₀ tr₁ : List Effect}
    (h : applyActionsGo env email pre tr₀ = (tr₁, none)) (rest : List PyAction) :
    applyActionsGo env email (pre ++ rest) tr₀ = applyActionsGo env email rest tr₁ := by
  induction pre generalizing tr₀ with
  | nil =>
    simp [applyActionsGo] at h
    rw [List.nil_append, h]
  | cons a as ih =>
    rcases hone : applyOneAction env email a tr₀ with ⟨tr', oe⟩
    cases oe with
    | none =>
      have h' : applyActionsGo env email as tr' = (tr₁, none) := by
        simpa [applyActionsGo, hone] using h
      simpa [applyActionsGo, hone] using ih h'
    | some e => simp [applyActionsGo, hone] at h

/-- C7: if an action of `apply_actions` raises, the loop aborts there —
no later action is attempted (the result no longer depends on the
actions after the failing one), the call returns `False`, and the
effects performed before the failure (both by earlier actions and by
the failing action before its raising call) remain in the trace. -/
theorem claim7_apply_actions_abort (env : Effect → Bool) (email : Email)
    (nm : String) (conds : List RuleCondition) (prd : String)
    (pre post : List PyAction) (a : PyAction) (tr₀ tr₁ tr₂ : List Effect)
    (e : PyErr)
    (hpre : applyActionsGo env email pre tr₀ = (tr₁, none))
    (ha : applyOneAction env email a tr₁ = (tr₂, some e)) :
    (Rule.mk nm conds prd (pre ++ a :: post)).apply_actions env email tr₀ =
      (false, tr₂) ∧ (∃ s, tr₂ = tr₁ ++ s) ∧ (∃ s, tr₁ = tr₀ ++ s) := by
  refine ⟨?_, ?_, ?_⟩
  · show Rule.apply_actions _ env email tr₀ = _
    unfold Rule.apply_actions
    rw [applyActionsGo_append_ok hpre (a :: post)]
    simp [applyActionsGo, ha]
  · obtain ⟨s, hs⟩ := applyOneAction_extends env email a tr₁
    rw [ha] at hs
    exact ⟨s, hs⟩
  · obtain ⟨s, hs⟩ := applyActionsGo_extends env email pre tr₀
    rw [hpre] at hs
    exact ⟨s, hs⟩

/-- C7 witness: a three-action rule whose middle move action fails at
the database call: the first action and the Gmail half of the move stay
applied, the trailing action never runs, and the call returns false. -/
theorem claim7_witness :
    (Rule.mk "w7" [] "all"
        [⟨[("type", "mark_as_read")]⟩,
         ⟨[("type", "move_message"), ("label", "A")]⟩,
         ⟨[("type", "mark_as_unread")]⟩]).apply_actions
        envFailDbLabels sampleEmail [] =
      (false, [.gmailMarkAsRead (.str "m1") true, .dbMarkAsRead (.str "m1") true,
               .gmailMoveMessage (.str "m1") "A"]) :=
  (claim7_apply_actions_abort envFailDbLabels sampleEmail "w7" [] "all"
    [⟨[("type", "mark_as_read")]⟩] [⟨[("type", "mark_as_unread")]⟩]
    ⟨[("type", "move_message"), ("label", "A")]⟩ []
    [.gmailMarkAsRead (.str "m1") true, .dbMarkAsRead (.str "m1") true]
    [.gmailMarkAsRead (.str "m1") true, .dbMarkAsRead (.str "m1") true,
     .gmailMoveMessage (.str "m1") "A"]
    .collaborator (by rfl) (by rfl)).1

/-- C8: an action whose type is none of mark_as_read, mark_as_unread,
move_message is silently skipped — no call, no exception — the
remaining actions run exactly as if the action were absent, and with no
failure among them `apply_actions` still returns `True`. -/
theorem claim8_unrecognized_action_skipped (env : Effect → Bool) (email : Email)
    (a : PyAction) (t : String)
    (htype : List.lookup "type" a.entries = some t)
    (h1 : t ≠ "mark_as_read") (h2 : t ≠ "mark_as_unread")
    (h3 : t ≠ "move_message") :
    (∀ tr, applyOneAction env email a tr = (tr, none)) ∧
    (∀ rest tr, applyActionsGo env email (a :: rest) tr =
        applyActionsGo env email rest tr) ∧
    (∀ nm conds prd rest tr tr',
      applyActionsGo env email rest tr = (tr', none) →
      (Rule.mk nm conds prd (a :: rest)).apply_actions env email tr = (true, tr')) := by
  have hone : ∀ tr, applyOneAction env email a tr = (tr, none) := by
    intro tr
    simp [applyOneAction, PyAction.get, htype, h1, h2, h3]
  refine ⟨hone, ?_, ?_⟩
  · intro rest tr
    simp [applyActionsGo, hone]
  · intro nm conds prd rest tr tr' hrest
    show Rule.apply_actions _ env email tr = _
    unfold Rule.apply_actions
    simp [applyActionsGo, hone, hrest]

/-- C8 witness: a rule whose first action has the unknown type
"archive" still runs its second, recognised action and returns true. -/
theorem claim8_witness :
    (Rule.mk "w8" [] "all"
        [⟨[("type", "archive")]⟩, ⟨[("type", "mark_as_read")]⟩]).apply_actions
        envAllOk sampleEmail [] =
      (true, [.gmailMarkAsRead (.str "m1") true, .dbMarkAsRead (.str "m1") true]) :=
  (claim8_unrecognized_action_skipped envAllOk sampleEmail ⟨[("type", "archive")]⟩
      "archive" (by rfl) (by decide) (by decide) (by decide)).2.2
    "w8" [] "all" [⟨[("type", "mark_as_read")]⟩] []
    [.gmailMarkAsRead (.str "m1") true, .dbMarkAsRead (.str "m1") true] (by rfl)

/-- C10: a move_message action with no "label" entry makes no mailbox
call and no store call, the loop silently continues, and with no other
failure `apply_actions` still returns `True`. -/
theorem claim10_move_without_label (env : Effect → Bool) (email : Email)
    (a : PyAction)
    (htype : List.lookup "type" a.entries = some "move_message")
    (hlabel : List.lookup "label" a.entries = none) :
    (∀ tr, applyOneAction env email a tr = (tr, none)) ∧
    (∀ rest tr, applyActionsGo env email (a :: rest) tr =
        applyActionsGo env email rest tr) ∧
    (∀ nm conds prd rest tr tr',
      applyActionsGo env email rest tr = (tr', none) →
      (Rule.mk nm conds prd (a :: rest)).apply_actions env email tr = (true, tr')) := by
  have hone : ∀ tr, applyOneAction env email a tr = (tr, none) := by
    intro tr
    simp [applyOneAction, PyAction.get, htype, hlabel]
  refine ⟨hone, ?_, ?_⟩
  · intro rest tr
    simp [applyActionsGo, hone]
  · intro nm conds prd rest tr tr' hrest
    show Rule.apply_actions _ env email tr = _
    unfold Rule.apply_actions
    simp [applyActionsGo, hone, hrest]

/-- C10 witness: a label-less move action is skipped without any
collaborator call and the following action still runs. -/
theorem claim10_witness :
    (Rule.mk "w10" [] "all"
        [⟨[("type", "move_message")]⟩, ⟨[("type", "mark_as_unread")]⟩]).apply_actions
        envAllOk sampleEmail [] =
      (true, [.gmailMarkAsRead (.str "m1") false, .dbMarkAsRead (.str "m1") false]) :=
  (claim10_move_without_label envAllOk sampleEmail ⟨[("type", "move_message")]⟩
      (by rfl) (by rfl)).2.2
    "w10" [] "all" [⟨[("type", "mark_as_unread")]⟩] []
    [.gmailMarkAsRead (.str "m1") false, .dbMarkAsRead (.str "m1") false] (by rfl)

/-- C6: `process_email` evaluates both rules in declaration order and
does not abort when the first matching rule fails to apply its actions:
with two matching rules, the final trace is always the second rule
acting on whatever trace the first left behind, whether or not the
first succeeded. -/
theorem claim6_all_rules_evaluated (env : Effect → Bool) (email : Email) (now : Int)
    (r₁ r₂ : Rule)
    (h₁ : r₁.evaluate email now = .ok true)
    (h₂ : r₂.evaluate email now = .ok true) :
    process_email [r₁, r₂] env email now =
      .ok (true, (r₂.apply_actions env email
        ((r₁.apply_actions env email []).2)).2) := by
  rcases hap1 : r₁.apply_actions env email [] with ⟨b₁, tr₁⟩
  rcases hap2 : r₂.apply_actions env email tr₁ with ⟨b₂, tr₂⟩
  simp [process_email, processEmailGo, h₁, h₂, hap1, hap2]

/-- C6 witness: two always-matching rules in an environment failing the
first rule's Gmail move call — the second rule is still evaluated and
its two collaborator calls appear in the trace. -/
theorem claim6_witness :
    process_email [ruleMover, ruleReader] envFailGmailMove sampleEmail 0 =
      .ok (true, [.gmailMarkAsRead (.str "m1") true,
                  .dbMarkAsRead (.str "m1") true]) := by
  have h := claim6_all_rules_evaluated envFailGmailMove sampleEmail 0
    ruleMover ruleReader (by rfl) (by rfl)
  rw [h]
  rfl

/-- C9: with predicate "all", `Rule.evaluate` is true iff the rule has
at least one condition and every condition is true on the message (a
rule with no conditions is always false, overriding the vacuous truth
of "all"); with predicate "any", true iff some condition is true; and
an empty condition list yields false regardless of the predicate. -/
theorem claim9_rule_predicates (r : Rule) (email : Email) (now : Int) :
    (r.predicate = "all" →
      (r.evaluate email now = .ok true ↔
        (r.conditions ≠ [] ∧
          ∀ c ∈ r.conditions, c.evaluate email now = .ok true))) ∧
    (r.predicate = "any" →
      (r.evaluate email now = .ok true ↔
        (∃ c ∈ r.conditions, c.evaluate email now = .ok true))) ∧
    (r.conditions = [] → r.evaluate email now = .ok false) := by
  refine ⟨?_, ?_, ?_⟩
  · intro hall
    rw [rule_evaluate_eq]
    by_cases hc : r.conditions = []
    · simp [hc]
    · simp [hc, hall, List.all_eq_true, evalB_true_iff]
  · intro hany
    have hna : r.predicate ≠ "all" := by rw [hany]; decide
    rw [rule_evaluate_eq]
    by_cases hc : r.conditions = []
    · simp [hc]
    · simp [hc, hany, hna, List.any_eq_true, evalB_true_iff]
  · intro hc
    rw [rule_evaluate_eq]
    simp [hc]

/-- C9 witness: the concrete always-matching rule is accepted through
the "all" branch of the characterisation, and a rule with no
conditions evaluates to false. -/
theorem claim9_witness :
    ruleMover.evaluate sampleEmail 0 = .ok true ∧
      (Rule.mk "empty" [] "any" []).evaluate sampleEmail 0 = .ok false := by
  constructor
  · exact ((claim9_rule_predicates ruleMover sampleEmail 0).1 rfl).mpr
      ⟨by decide, by
        intro c hc
        have : c = ⟨"subject", "contains", ""⟩ := List.mem_singleton.mp hc
        rw [this]
        rfl⟩
  · exact (claim9_rule_predicates (Rule.mk "empty" [] "any" []) sampleEmail 0).2.2 rfl

/-- C4: condition evaluation is total — it always returns a boolean
and never raises on the modelled value universe; an unmapped field name
yields false; and a `received_date` condition on a message whose
received_date value is not a datetime yields false (the exception from
touching the value is caught and converted). -/
theorem claim4_condition_evaluate_total (c : RuleCondition) (email : Email)
    (now : Int) (c₂ : RuleCondition)
    (hunmapped : List.lookup c₂.field EMAIL_FIELD_MAPPING = none) :
    (∃ b, c.evaluate email now = .ok b) ∧
    (c₂.evaluate email now = .ok false) ∧
    (∀ p v (w : EmailValue) (rest : Email), w.isDatetime = false →
      RuleCondition.evaluate ⟨"received_date", p, v⟩
        (("received_date", w) :: rest) now = .ok false) := by
  refine ⟨condition_evaluate_isOk c email now, ?_, ?_⟩
  · simp [RuleCondition.evaluate, hunmapped]
  · intro p v w rest hw
    have hdate : ∀ pc : RuleCondition, pc.evaluate_date w now = .ok false := by
      intro pc
      cases w with
      | str s => rfl
      | boolVal b => rfl
      | dtNaive t => simp [EmailValue.isDatetime] at hw
      | dtAware t => simp [EmailValue.isDatetime] at hw
    simp [RuleCondition.evaluate, List.lookup, hdate]

/-- C4 witness: an unmapped field name ("labels" is not in the field
mapping) and a string-typed received_date both evaluate to false, and a
well-formed condition evaluates to some boolean. -/
theorem claim4_witness :
    (RuleCondition.mk "labels" "contains" "INBOX").evaluate sampleEmail 0 = .ok false ∧
      RuleCondition.evaluate ⟨"received_date", "less_than", "7 days"⟩
        [("received_date", .str "oops")] 0 = .ok false := by
  have h := claim4_condition_evaluate_total
    ⟨"subject", "contains", "x"⟩ sampleEmail 0
    ⟨"labels", "contains", "INBOX"⟩ (by rfl)
  exact ⟨h.2.1, h.2.2 "less_than" "7 days" (.str "oops") [] (by rfl)⟩

theorem evaluate_received_date (prd : String) (now t N : Int) (v : String)
    (hdays : pySubstr "days" v = true)
    (hparse : pySplitHead v.data >>= pyInt = .ok N) :
    RuleCondition.evaluate ⟨"received_date", prd, v⟩
        [("received_date", .dtNaive t)] now =
      .ok (if prd = "less_than" then decide (t > now - N * 86400)
           else if prd = "greater_than" then decide (t < now - N * 86400)
           else false) := by
  cases hsp : pySplitHead v.data with
  | error e =>
    rw [hsp] at hparse
    simp [Bind.bind, Except.bind] at hparse
  | ok tok =>
    rw [hsp] at hparse
    have hpi : pyInt tok = .ok N := by
      simpa [Bind.bind, Except.bind] using hparse
    have hm : List.lookup "received_date" EMAIL_FIELD_MAPPING =
        some "received_date" := by rfl
    have hl : List.lookup "received_date" [("received_date", EmailValue.dtNaive t)] =
        some (.dtNaive t) := by rfl
    have hne : ¬("received_date" = "") := by decide
    simp only [RuleCondition.evaluate, hm, hne, if_false, hl, if_true,
      RuleCondition.evaluate_date, RuleCondition.evaluate_date_raw,
      RuleCondition.evaluate_date_body, hdays, hsp, hpi]
    split_ifs <;> rfl

/-- C5: for a date condition with value encoding N days and threshold
now minus N days, less_than holds iff the received time is strictly
after the threshold and greater_than iff strictly before it; hence a
message received 10 days ago satisfies greater_than "7 days" and not
less_than "7 days", and one received 5 days ago satisfies less_than
"7 days" and not greater_than "7 days". -/
theorem claim5_date_condition_semantics (now t N : Int) (v : String)
    (hdays : pySubstr "days" v = true)
    (hparse : pySplitHead v.data >>= pyInt = .ok N) :
    (RuleCondition.evaluate ⟨"received_date", "less_than", v⟩
        [("received_date", .dtNaive t)] now = .ok (decide (t > now - N * 86400))) ∧
    (RuleCondition.evaluate ⟨"received_date", "greater_than", v⟩
        [("received_date", .dtNaive t)] now = .ok (decide (t < now - N * 86400))) ∧
    (∀ n : Int,
      RuleCondition.evaluate ⟨"received_date", "greater_than", "7 days"⟩
        [("received_date", .dtNaive (n - 10 * 86400))] n = .ok true ∧
      RuleCondition.evaluate ⟨"received_date", "less_than", "7 days"⟩
        [("received_date", .dtNaive (n - 10 * 86400))] n = .ok false ∧
      RuleCondition.evaluate ⟨"received_date", "greater_than", "7 days"⟩
        [("received_date", .dtNaive (n - 5 * 86400))] n = .ok false ∧
      RuleCondition.evaluate ⟨"received_date", "less_than", "7 days"⟩
        [("received_date", .dtNaive (n - 5 * 86400))] n = .ok true) := by
  refine ⟨?_, ?_, ?_⟩
  · rw [evaluate_received_date "less_than" now t N v hdays hparse]
    rfl
  · rw [evaluate_received_date "greater_than" now t N v hdays hparse]
    rfl
  · intro n
    refine ⟨?_, ?_, ?_, ?_⟩
    · rw [evaluate_received_date "greater_than" n (n - 10 * 86400) 7 "7 days"
        (by rfl) (by rfl)]
      simp
    · rw [evaluate_received_date "less_than" n (n - 10 * 86400) 7 "7 days"
        (by rfl) (by rfl)]
      simp
    · rw [evaluate_received_date "greater_than" n (n - 5 * 86400) 7 "7 days"
        (by rfl) (by rfl)]
      simp
    · rw [evaluate_received_date "less_than" n (n - 5 * 86400) 7 "7 days"
        (by rfl) (by rfl)]
      simp

/-- C5 witness: the claim instantiated at value "7 days" and a concrete
evaluation instant. -/
theorem claim5_witness :
    RuleCondition.evaluate ⟨"received_date", "greater_than", "7 days"⟩
      [("received_date", .dtNaive (0 - 10 * 86400))] 0 = .ok true ∧
    RuleCondition.evaluate ⟨"received_date", "less_than", "7 days"⟩
      [("received_date", .dtNaive (0 - 5 * 86400))] 0 = .ok true :=
  ⟨((claim5_date_condition_semantics 0 0 7 "7 days" (by rfl) (by rfl)).2.2 0).1,
   ((claim5_date_condition_semantics 0 0 7 "7 days" (by rfl) (by rfl)).2.2 0).2.2.2⟩

/-! C1: what the batch loop actually marks as processed. -/

theorem process_email_always_true (rules : List Rule) (env : Effect → Bool)
    (email : Email) (now : Int) :
    ∃ tr, process_email rules env email now = .ok (true, tr) := by
  obtain ⟨tr, htr⟩ := processEmailGo_ok env email now rules []
  exact ⟨tr, by simp [process_email, htr]⟩

theorem batchGo_eq_of_ids (rules : List Rule) (env : Effect → Bool) (now : Int) :
    ∀ (batch : List Email) (acc : List EmailValue),
      (∀ email ∈ batch, (List.lookup "message_id" email).isSome = true) →
      batchProcessedIdsGo rules env now batch acc =
        .ok (acc ++ batch.filterMap (fun email =>
          match process_email rules env email now with
          | .ok (true, _) => (emailGet email "message_id").toOption
          | _ => none)) := by
  intro batch
  induction batch with
  | nil => intro acc _; simp [batchProcessedIdsGo]
  | cons email rest ih =>
    intro acc hids
    obtain ⟨tr, hp⟩ := process_email_always_true rules env email now
    obtain ⟨mid, hmid⟩ :=
      Option.isSome_iff_exists.mp (hids email (List.mem_cons_self email rest))
    have hget : emailGet email "message_id" = .ok mid := by simp [emailGet, hmid]
    have hrest : ∀ e ∈ rest, (List.lookup "message_id" e).isSome = true :=
      fun e he => hids e (List.mem_cons_of_mem email he)
    simp only [batchProcessedIdsGo, hp, hget, ih (acc ++ [mid]) hrest,
      List.filterMap_cons, Except.toOption]
    simp [List.append_assoc]

/-- C1 counterexample: a batch holding one message that matches no rule
(the single rule evaluates to false on it) is still marked processed —
its identifier is collected and the batched mark-processed call happens
— because `process_email` returns `True` whether or not any rule
matched. -/
theorem claim1_counterexample :
    ruleNoMatch.evaluate sampleEmail 0 = .ok false ∧
    batch_processed_ids [ruleNoMatch] envAllOk 0 [sampleEmail] = .ok [.str "m1"] ∧
    markProcessedBatchCalled [ruleNoMatch] envAllOk 0 [sampleEmail] = true :=
  ⟨by rfl, by rfl, by rfl⟩

/-- C1 amended: for every fetched batch (each message carries its
`message_id`, as the mailbox adapter produces them), the batch loop
collects exactly the identifiers of the messages for which
`process_email` returned `True` — rule matching plays no role in that
return value, so a message on which no rule matched is included — and
the batched mark-processed call happens iff that list is nonempty. -/
theorem claim1_amended_batch_ids (rules : List Rule) (env : Effect → Bool)
    (now : Int) (batch : List Email)
    (hids : ∀ email ∈ batch, (List.lookup "message_id" email).isSome = true) :
    batch_processed_ids rules env now batch =
      .ok (batch.filterMap (fun email =>
        match process_email rules env email now with
        | .ok (true, _) => (emailGet email "message_id").toOption
        | _ => none)) ∧
    markProcessedBatchCalled rules env now batch =
      ! (batch.filterMap (fun email =>
        match process_email rules env email now with
        | .ok (true, _) => (emailGet email "message_id").toOption
        | _ => none)).isEmpty := by
  have h := batchGo_eq_of_ids rules env now batch [] hids
  rw [List.nil_append] at h
  exact ⟨h, by simp [markProcessedBatchCalled, batch_processed_ids, h]⟩

/-- C1 amended witness: the one-message no-match batch instantiates the
amended characterisation. -/
theorem claim1_witness :
    batch_processed_ids [ruleNoMatch] envAllOk 0 [sampleEmail] = .ok [.str "m1"] ∧
    markProcessedBatchCalled [ruleNoMatch] envAllOk 0 [sampleEmail] = true := by
  have h := claim1_amended_batch_ids [ruleNoMatch] envAllOk 0 [sampleEmail]
    (by intro email he; rw [List.mem_singleton.mp he]; rfl)
  refine ⟨?_, ?_⟩
  · rw [h.1]; rfl
  · rw [h.2]; rfl

/-! C2: what `load_rules` leaves behind on a malformed document. -/

theorem loadRulesGo_all_ok : ∀ (js : List JValue) (built : List Rule)
    (acc : List Rule), buildRules js = .ok built →
    loadRulesGo js acc = acc ++ built := by
  intro js
  induction js with
  | nil =>
    intro built acc h
    simp [buildRules] at h
    simp [loadRulesGo, ← h]
  | cons j rest ih =>
    intro built acc h
    cases hb : buildRule j with
    | error e => simp [buildRules, hb] at h
    | ok r =>
      cases hm : buildRules rest with
      | error e => simp [buildRules, hb, hm] at h
      | ok rs =>
        simp [buildRules, hb, hm] at h
        rw [loadRulesGo, hb]
        simp only []
        rw [ih rs (acc ++ [r]) hm, ← h, List.append_assoc]
        rfl

theorem loadRulesGo_stops_at_bad (bad : JValue) (e : PyErr)
    (hbad : buildRule bad = .error e) :
    ∀ (pre rest : List JValue) (built : List Rule) (acc : List Rule),
      buildRules pre = .ok built →
      loadRulesGo (pre ++ bad :: rest) acc = acc ++ built := by
  intro pre
  induction pre with
  | nil =>
    intro rest built acc h
    simp [buildRules] at h
    simp [loadRulesGo, hbad, ← h]
  | cons j pres ih =>
    intro rest built acc h
    cases hb : buildRule j with
    | error e₂ => simp [buildRules, hb] at h
    | ok r =>
      cases hm : buildRules pres with
      | error e₂ => simp [buildRules, hb, hm] at h
      | ok rs =>
        simp [buildRules, hb, hm] at h
        rw [List.cons_append, loadRulesGo, hb]
        simp only []
        rw [ih rest rs (acc ++ [r]) hm, ← h, List.append_assoc]
        rfl

/-- C2 counterexample: a configuration document whose second rule
object is malformed (its "name" key is missing, so construction raises
`KeyError` there) does not leave the engine with an empty rule list:
the first, well-formed rule stays loaded. -/
theorem claim2_counterexample :
    buildRule badRuleJ = .error .keyError ∧
    load_rules (.ok docTwoRules) = [goodRule] ∧
    load_rules (.ok docTwoRules) ≠ [] := by
  refine ⟨by rfl, by rfl, ?_⟩
  have h2 : load_rules (.ok docTwoRules) = [goodRule] := by rfl
  rw [h2]
  simp

/-- C2 amended: every rule-loading failure is caught at construction
and never propagates, but the engine is left with the rules
successfully constructed before the first failure, not always an empty
list: the list is empty when the document itself fails to parse, or its
"rules" entry is missing or not a list, or the failure hits before any
rule was built; a malformed later rule leaves the earlier rules
loaded. -/
theorem claim2_amended_load_rules (doc : Except PyErr JValue) :
    (∀ e, doc = .error e → load_rules doc = []) ∧
    (∀ j e, doc = .ok j → getRulesList j = .error e → load_rules doc = []) ∧
    (∀ j pre bad rest built e, doc = .ok j →
      getRulesList j = .ok (pre ++ bad :: rest) →
      buildRules pre = .ok built →
      buildRule bad = .error e →
      load_rules doc = built) ∧
    (∀ j js built, doc = .ok j → getRulesList j = .ok js →
      buildRules js = .ok built → load_rules doc = built) := by
  refine ⟨?_, ?_, ?_, ?_⟩
  · intro e he
    rw [he]
    rfl
  · intro j e hj hg
    rw [hj]
    simp [load_rules, hg]
  · intro j pre bad rest built e hj hg hpre hbad
    rw [hj]
    simp [load_rules, hg]
    rw [loadRulesGo_stops_at_bad bad e hbad pre rest built [] hpre]
    rfl
  · intro j js built hj hg hall
    rw [hj]
    simp [load_rules, hg]
    rw [loadRulesGo_all_ok js built [] hall]
    rfl

/-- C2 amended witness: the two-rule document with a malformed second
rule keeps exactly the first rule, and an unparseable document yields
an empty list. -/
theorem claim2_witness :
    load_rules (.ok docTwoRules) = [goodRule] ∧
      load_rules (.error .valueError) = [] := by
  have h := claim2_amended_load_rules (.ok docTwoRules)
  refine ⟨h.2.2.1 docTwoRules [goodRuleJ] badRuleJ [] [goodRule] .keyError rfl
    (by rfl) (by rfl) (by rfl), ?_⟩
  exact (claim2_amended_load_rules (.error .valueError)).1 .valueError rfl

end WallE
